import Mathlib

/-!
Shallow embedding of the amqpx package (two Go files: the channel
supervisor `Amqpx` with `New` / `initChannel` / `redial`, and the
consumer supervisor `AmqpxConsumer` with `AddFunc` / `Start` / `run` /
`consume` / `runWithRecovery` / `Stop`).

External broker behaviour (connection initialization results, channel
open results, delivery streams, handler outcomes) is supplied through
explicit oracle values; the control flow of each Go function is
translated line by line into a pure function that returns the new state
together with a trace of the observable actions the function performs.
Machine integers are modelled as Nat reduced modulo 2 to the 64, matching
the uint64 arithmetic of atomic.AddUint64.
-/

namespace Amqpx

/-! ## Decimal formatting: model of strconv.FormatUint(n, 10) -/

/-- Little-endian decimal digit list of a natural number. Fuel-based
structural recursion (fuel at least n suffices) so that the kernel can
evaluate it. Models the digit decomposition of strconv.FormatUint(n, 10). -/
def toDecRevAux : Nat → Nat → List Nat
  | 0, n => [n]
  | fuel + 1, n => if n < 10 then [n] else n % 10 :: toDecRevAux fuel (n / 10)

/-- Little-endian decimal digits of n. -/
def toDecRev (n : Nat) : List Nat := toDecRevAux n n

/-- Value of a little-endian decimal digit list. -/
def fromDecRev : List Nat → Nat
  | [] => 0
  | d :: ds => d + 10 * fromDecRev ds

/-- Decimal string of a natural number, as strconv.FormatUint(n, 10)
produces it: most significant digit first. -/
def formatUint (n : Nat) : String := ⟨(toDecRev n).reverse.map Nat.digitChar⟩

/-- Consumer identity as built by AddFunc: label, hyphen, decimal
sequence number. -/
def consumerKey (label : String) (seq : Nat) : String :=
  label ++ "-" ++ formatUint seq

/-! ## ChannelSupervisor (Amqpx): initChannel, New, redial -/

/-- Status of the shared package-level broker connection: Go tests
`Connection == nil || Connection.IsClosed()`. -/
inductive ConnStatus
  | absent
  | closed
  | live
deriving DecidableEq, Repr

/-- Go condition `Connection == nil || Connection.IsClosed()`. -/
def ConnStatus.needsInit : ConnStatus → Bool
  | .live => false
  | _ => true

/-- State owned by one Amqpx value: the shared connection it sees and its
current channel, a pair of an identifier and an open flag (Go:
`ad.channel != nil && !ad.channel.IsClosed()`). -/
structure AmqpxState where
  conn : ConnStatus
  channel : Option (Nat × Bool)
deriving DecidableEq, Repr

/-- Oracle for one initChannel call: outcome of `Init()` (none means the
connection comes up live) and outcome of `Connection.Channel()` (the
identifier of the freshly opened channel on success). -/
structure ChanEnv where
  initResult : Option String
  openResult : Except String Nat
deriving Repr

/-- Observable actions of initChannel. -/
inductive ChanEvent
  | connInit
  | closeOld (id : Nat)
  | openNew (id : Nat)
deriving DecidableEq, Repr

/-- Second half of initChannel: close the previous channel when it is
still open, then call `Connection.Channel()`; a failure is wrapped as
`open channel error`. -/
def openFresh (env : ChanEnv) (s : AmqpxState) (evs : List ChanEvent) :
    AmqpxState × List ChanEvent × Option String :=
  let closed :=
    match s.channel with
    | some (id, true) => ({ s with channel := some (id, false) }, evs ++ [ChanEvent.closeOld id])
    | _ => (s, evs)
  match env.openResult with
  | .error e => (closed.1, closed.2, some ("open channel error: " ++ e))
  | .ok id => ({ closed.1 with channel := some (id, true) },
      closed.2 ++ [ChanEvent.openNew id], none)

/-- Model of Amqpx.initChannel: re-initialize the shared connection when
it is absent or closed (failure wrapped as `amqpd connection error`),
close a still-open previous channel, open a replacement. -/
def initChannel (env : ChanEnv) (s : AmqpxState) :
    AmqpxState × List ChanEvent × Option String :=
  if s.conn.needsInit then
    match env.initResult with
    | some e => (s, [ChanEvent.connInit], some ("amqpd connection error: " ++ e))
    | none => openFresh env { s with conn := .live } [ChanEvent.connInit]
  else
    openFresh env s []

/-- Model of New: fresh state with no channel, one initChannel call; on
failure the error is returned and no supervisor is produced. -/
def New (conn0 : ConnStatus) (env : ChanEnv) : Except String AmqpxState :=
  let r := initChannel env { conn := conn0, channel := none }
  match r.2.2 with
  | some e => .error e
  | none => .ok r.1

/-! ### redial -/

/-- Observable actions of the redial background task. -/
inductive RedialEvent
  | logClosing (cause : String)
  | logReconnecting
  | reconnectAttempt
  | logReconnectError (e : String)
  | sleep10
  | logReestablished
  | returned
deriving DecidableEq, Repr

/-- How an inner retry sub-loop run ended. -/
inductive InnerEnd
  | stopped
  | resumed
  | fuelOut
deriving DecidableEq, Repr

/-- One iteration of the retry sub-loop reads the stop signal
(select/default) and, when absent, attempts initChannel; the oracle
gives both. -/
structure InnerRound where
  stopSignalled : Bool
  initErr : Option String
deriving Repr

/-- Model of the retry sub-loop inside redial: re-check stop on every
iteration, attempt re-acquisition, sleep 10 seconds per failure, break
on success. -/
def innerRetry : List InnerRound → List RedialEvent × InnerEnd
  | [] => ([], .fuelOut)
  | r :: rest =>
    if r.stopSignalled then ([RedialEvent.returned], .stopped)
    else
      match r.initErr with
      | some e =>
        let t := innerRetry rest
        (RedialEvent.logReconnecting :: RedialEvent.reconnectAttempt ::
          RedialEvent.logReconnectError e :: RedialEvent.sleep10 :: t.1, t.2)
      | none =>
        ([RedialEvent.logReconnecting, RedialEvent.reconnectAttempt,
          RedialEvent.logReestablished], .resumed)

/-- One wake-up of the outer select in redial: either the stop channel
fires or a close notification arrives with its cause and the script of
the retry sub-loop that follows. -/
inductive OuterInput
  | stop
  | closeNotify (cause : String) (inner : List InnerRound)

/-- Model of Amqpx.redial: block on stop versus close notification; on
close, log and run the retry sub-loop; resume waiting once the sub-loop
re-establishes the channel. -/
def redialTrace : List OuterInput → List RedialEvent
  | [] => []
  | .stop :: _ => [RedialEvent.returned]
  | .closeNotify cause inner :: rest =>
    RedialEvent.logClosing cause ::
      (let t := innerRetry inner
       match t.2 with
       | .resumed => t.1 ++ redialTrace rest
       | _ => t.1)

/-! ## ConsumerSupervisor (AmqpxConsumer) -/

/-- Behaviour of one handler invocation on one delivery body: it returns
nil, returns an error, or panics mid-execution. -/
inductive HandlerOutcome
  | ok
  | fail (msg : String)
  | panics (msg : String)
deriving DecidableEq, Repr

/-- Model of AmqpxConsumer.runWithRecovery: the deferred recover catches
a panic and logs it with the captured stack; the function result is the
unnamed error return, which on the panic path is the zero value nil.
Returns the error result paired with the log lines emitted. -/
def runWithRecovery (handler : Nat → HandlerOutcome) (body : Nat) :
    Option String × List String :=
  match handler body with
  | .ok => (none, [])
  | .fail e => (some e, [])
  | .panics m => (none, ["amqpd-consumer: panic running job: " ++ m])

/-- Terminal disposition of one delivery. -/
inductive Disposition
  | ack (multiple : Bool)
  | reject (requeue : Bool)
deriving DecidableEq, Repr

/-- Per-delivery branch of AmqpxConsumer.consume: reject with requeue
when runWithRecovery returns an error, otherwise ack with multiple set
to false. -/
def dispositionFor (handler : Nat → HandlerOutcome) (body : Nat) : Disposition :=
  match (runWithRecovery handler body).1 with
  | some _ => .reject true
  | none => .ack false

/-- Drain loop of AmqpxConsumer.consume over the delivery stream: each
delivery body paired with the one disposition issued for it. -/
def consumeDrain (handler : Nat → HandlerOutcome) (deliveries : List Nat) :
    List (Nat × Disposition) :=
  deliveries.map (fun d => (d, dispositionFor handler d))

/-- Model of AmqpxConsumer.consume: obtaining the stream may fail, which
is wrapped as `amqpd consume err`; otherwise the stream is drained and
nil is returned when it ends. -/
def consume (attach : Except String (List Nat)) (handler : Nat → HandlerOutcome) :
    Except String (List (Nat × Disposition)) :=
  match attach with
  | .error e => .error ("amqpd consume err: " ++ e)
  | .ok ds => .ok (consumeDrain handler ds)

/-! ### Registry state: AddFunc, Start, Stop -/

/-- Go map assignment on an association list: replace the binding when
the key is present, append it otherwise. -/
def mapInsert {V : Type} : List (String × V) → String → V → List (String × V)
  | [], k, v => [(k, v)]
  | (k', v') :: t, k, v =>
    if k' = k then (k, v) :: t else (k', v') :: mapInsert t k v

/-- Keys of an association list. -/
def keysOf {V : Type} (l : List (String × V)) : List String := l.map Prod.fst

/-- State of one AmqpxConsumer together with the package-level uint64
consumerSeq it reads through atomic.AddUint64. An entry maps a consumer
identity to its queue and handler. -/
structure ConsumerState (H : Type) where
  consumerSeq : Nat
  entries : List (String × String × H)
  running : Bool
deriving Repr

/-- Identity the next AddFunc call on this state will assign:
consumer label plus a hyphen plus the incremented sequence number,
with uint64 wrap-around. -/
def nextKey {H : Type} (s : ConsumerState H) (consumer : String) : String :=
  consumerKey consumer ((s.consumerSeq + 1) % 2 ^ 64)

/-- Model of AmqpxConsumer.AddFunc: atomically increment the global
sequence (mod 2 to the 64), build the identity label-hyphen-sequence, and
store the binding in the registry map. -/
def AddFunc {H : Type} (queue consumer : String) (fn : H) (s : ConsumerState H) :
    ConsumerState H :=
  { s with
    consumerSeq := (s.consumerSeq + 1) % 2 ^ 64,
    entries := mapInsert s.entries (nextKey s consumer) (queue, fn) }

/-- Observable actions of Start: a waitgroup Add for an identity, then
the launch of the consumption loop goroutine for that identity. -/
inductive StartEvent
  | waiterAdd (key : String)
  | launch (key : String)
deriving DecidableEq, Repr

/-- Model of AmqpxConsumer.Start: no-op when already running; otherwise
set running and, for every registered entry, register one task in the
waitgroup and launch one loop for it. -/
def Start {H : Type} (s : ConsumerState H) : ConsumerState H × List StartEvent :=
  if s.running then (s, [])
  else
    ({ s with running := true },
      s.entries.flatMap (fun e => [StartEvent.waiterAdd e.1, StartEvent.launch e.1]))

/-- Observable actions of the shutdown goroutine spawned by Stop, ending
with the resolution of the returned context. -/
inductive StopEvent
  | cancel (key : String)
  | waitJobs
  | closeChannel
  | resolve
deriving DecidableEq, Repr

/-- Model of AmqpxConsumer.Stop: clear the running flag and return a
context while the shutdown goroutine cancels every registered identity,
waits on the completion counter, closes the channel supervisor, and only
then resolves the context. -/
def Stop {H : Type} (s : ConsumerState H) : ConsumerState H × List StopEvent :=
  ({ s with running := false },
    s.entries.map (fun e => StopEvent.cancel e.1) ++
      [StopEvent.waitJobs, StopEvent.closeChannel, StopEvent.resolve])

/-! ### Per-binding loop: run -/

/-- One iteration of the run loop as seen through its reads of the
shared running flag and the result of its consume call. -/
structure RunRound where
  runningTop : Bool
  consumeErr : Option String
  runningAfter : Bool
deriving Repr

/-- Observable actions of the run loop. -/
inductive RunEvent
  | consumeCall
  | logRunError (e : String)
  | sleep15
  | exited
deriving DecidableEq, Repr

/-- Model of AmqpxConsumer.run: while the running flag is true, attempt
consume; on error log and sleep 15 seconds before retrying; on a clean
stream end re-check the flag, exiting when it is false and otherwise
sleeping 15 seconds before the next attempt. -/
def runTrace : List RunRound → List RunEvent
  | [] => []
  | r :: rest =>
    if r.runningTop then
      RunEvent.consumeCall ::
        match r.consumeErr with
        | some e => RunEvent.logRunError e :: RunEvent.sleep15 :: runTrace rest
        | none =>
          if r.runningAfter then RunEvent.sleep15 :: runTrace rest
          else [RunEvent.exited]
    else [RunEvent.exited]

/-! ### Concrete handlers and states used by witnesses -/

/-- Handler that always fails. -/
def failH : Nat → HandlerOutcome := fun _ => .fail "boom"

/-- Handler that always succeeds. -/
def okH : Nat → HandlerOutcome := fun _ => .ok

/-- Handler that always panics. -/
def panicH : Nat → HandlerOutcome := fun _ => .panics "nil deref"

/-- Fresh consumer state: package-level sequence at zero, empty
registry, not running. -/
def freshConsumer : ConsumerState Unit := ⟨0, [], false⟩

/-- Iterated registration of the same queue and label: state after n
AddFunc calls starting from the fresh state. -/
def addN : Nat → ConsumerState Unit
  | 0 => freshConsumer
  | n + 1 => AddFunc "q" "c" () (addN n)

/-! ## Helper lemmas -/

theorem fromDecRev_toDecRevAux (fuel : Nat) :
    ∀ n, n ≤ fuel → fromDecRev (toDecRevAux fuel n) = n := by
  induction fuel with
  | zero =>
    intro n hn
    interval_cases n
    simp [toDecRevAux, fromDecRev]
  | succ fuel ih =>
    intro n hn
    rw [toDecRevAux]
    split
    · simp [fromDecRev]
    · have hdiv : n / 10 < n := Nat.div_lt_self (by omega) (by omega)
      rw [fromDecRev, ih (n / 10) (by omega)]
      omega

theorem fromDecRev_toDecRev (n : Nat) : fromDecRev (toDecRev n) = n :=
  fromDecRev_toDecRevAux n n le_rfl

theorem toDecRev_injective : Function.Injective toDecRev := by
  intro m n h
  have := fromDecRev_toDecRev m
  rw [h, fromDecRev_toDecRev] at this
  omega

theorem toDecRevAux_lt_ten (fuel : Nat) :
    ∀ n, n ≤ fuel → ∀ d ∈ toDecRevAux fuel n, d < 10 := by
  induction fuel with
  | zero =>
    intro n hn d hd
    interval_cases n
    simp [toDecRevAux] at hd
    omega
  | succ fuel ih =>
    intro n hn d hd
    rw [toDecRevAux] at hd
    by_cases h10 : n < 10
    · simp [h10] at hd; omega
    · simp [h10] at hd
      rcases hd with h | h
      · omega
      · have hlt : n / 10 < n := Nat.div_lt_self (by omega) (by omega)
        exact ih (n / 10) (by omega) d h

theorem toDecRev_lt_ten (n : Nat) : ∀ d ∈ toDecRev n, d < 10 :=
  toDecRevAux_lt_ten n n le_rfl

theorem digitChar_inj_lt :
    ∀ a, a < 10 → ∀ b, b < 10 → Nat.digitChar a = Nat.digitChar b → a = b := by
  decide

theorem digitChar_ne_dash : ∀ a, a < 10 → Nat.digitChar a ≠ '-' := by decide

theorem map_digitChar_inj :
    ∀ l1 l2 : List Nat, (∀ d ∈ l1, d < 10) → (∀ d ∈ l2, d < 10) →
      l1.map Nat.digitChar = l2.map Nat.digitChar → l1 = l2 := by
  intro l1
  induction l1 with
  | nil =>
    intro l2 _ _ h
    cases l2 with
    | nil => rfl
    | cons b t => simp at h
  | cons a t ih =>
    intro l2 h1 h2 h
    cases l2 with
    | nil => simp at h
    | cons b t2 =>
      simp only [List.map_cons, List.cons.injEq] at h
      have ha : a = b :=
        digitChar_inj_lt a (h1 a (by simp)) b (h2 b (by simp)) h.1
      have ht : t = t2 :=
        ih t2 (fun d hd => h1 d (by simp [hd])) (fun d hd => h2 d (by simp [hd])) h.2
      rw [ha, ht]

theorem formatUint_injective : Function.Injective formatUint := by
  intro m n h
  have hdata : ((toDecRev m).reverse.map Nat.digitChar) =
      ((toDecRev n).reverse.map Nat.digitChar) := congrArg String.data h
  have hrev : (toDecRev m).reverse = (toDecRev n).reverse :=
    map_digitChar_inj _ _
      (fun d hd => toDecRev_lt_ten m d (List.mem_reverse.mp hd))
      (fun d hd => toDecRev_lt_ten n d (List.mem_reverse.mp hd))
      hdata
  exact toDecRev_injective (List.reverse_injective hrev)

theorem formatUint_no_dash (n : Nat) : '-' ∉ (formatUint n).data := by
  intro hc
  simp only [formatUint, List.mem_map, List.mem_reverse] at hc
  obtain ⟨d, hd, hdc⟩ := hc
  exact digitChar_ne_dash d (toDecRev_lt_ten n d hd) hdc

/-- When two lists agree and in each the marker occurs only at the shown
position, the parts around the marker agree. Core of the argument that
the decimal suffix after the final hyphen determines the sequence
number. -/
theorem append_marker_inj (m : Char) :
    ∀ x1 x2 y1 y2 : List Char, m ∉ x1 → m ∉ x2 →
      x1 ++ m :: y1 = x2 ++ m :: y2 → x1 = x2 ∧ y1 = y2 := by
  intro x1
  induction x1 with
  | nil =>
    intro x2 y1 y2 _ hx2 h
    cases x2 with
    | nil => simpa using h
    | cons c t =>
      simp only [List.nil_append, List.cons_append, List.cons.injEq] at h
      exact absurd (h.1 ▸ List.mem_cons_self c t) (h.1 ▸ hx2)
  | cons a t ih =>
    intro x2 y1 y2 hx1 hx2 h
    cases x2 with
    | nil =>
      simp only [List.cons_append, List.nil_append, List.cons.injEq] at h
      exact absurd (List.mem_cons_self a t) (h.1 ▸ hx1)
    | cons b t2 =>
      simp only [List.cons_append, List.cons.injEq] at h
      have := ih t2 y1 y2 (fun hm => hx1 (List.mem_cons_of_mem a hm))
        (fun hm => hx2 (h.1 ▸ List.mem_cons_of_mem b hm)) h.2
      exact ⟨by rw [h.1, this.1], this.2⟩

theorem consumerKey_data (label : String) (seq : Nat) :
    (consumerKey label seq).data = label.data ++ '-' :: (formatUint seq).data := by
  simp [consumerKey, String.data_append]

/-- Equal identities force equal sequence numbers, regardless of the two
labels: the decimal suffix holds no hyphen, so it is the segment after
the last hyphen of the identity. -/
theorem consumerKey_inj_seq {a b : String} {s t : Nat}
    (h : consumerKey a s = consumerKey b t) : s = t := by
  have hd : a.data ++ '-' :: (formatUint s).data =
      b.data ++ '-' :: (formatUint t).data := by
    have := congrArg String.data h
    rwa [consumerKey_data, consumerKey_data] at this
  have hrev : (formatUint s).data.reverse ++ '-' :: a.data.reverse =
      (formatUint t).data.reverse ++ '-' :: b.data.reverse := by
    have := congrArg List.reverse hd
    simpa using this
  have := append_marker_inj '-' _ _ _ _
    (fun hm => formatUint_no_dash s (List.mem_reverse.mp hm))
    (fun hm => formatUint_no_dash t (List.mem_reverse.mp hm)) hrev
  have hfu : formatUint s = formatUint t := by
    apply String.ext
    have := congrArg List.reverse this.1
    simpa using this
  exact formatUint_injective hfu

theorem mem_keysOf_mapInsert_self {V : Type} (l : List (String × V)) (k : String) (v : V) :
    k ∈ keysOf (mapInsert l k v) := by
  induction l with
  | nil => simp [mapInsert, keysOf]
  | cons e t ih =>
    rw [mapInsert]
    by_cases h : e.1 = k
    · simp [h, keysOf]
    · simp only [h, if_false, keysOf, List.map_cons, List.mem_cons]
      exact Or.inr ih

theorem mapInsert_of_not_mem {V : Type} (l : List (String × V)) (k : String) (v : V)
    (h : k ∉ keysOf l) : mapInsert l k v = l ++ [(k, v)] := by
  induction l with
  | nil => simp [mapInsert]
  | cons e t ih =>
    simp only [keysOf, List.map_cons, List.mem_cons, not_or] at h
    rw [mapInsert, if_neg (fun he => h.1 he.symm), ih h.2]
    simp

theorem launch_mem_flatMap {V : Type} (l : List (String × V)) (k : String) :
    StartEvent.launch k ∈
        l.flatMap (fun e => [StartEvent.waiterAdd e.1, StartEvent.launch e.1]) ↔
      k ∈ keysOf l := by
  induction l with
  | nil => simp [keysOf]
  | cons e t ih => simp [keysOf, ih]

theorem waiterAdd_before_launch {V : Type} (l : List (String × V)) :
    ∀ pre k post,
      l.flatMap (fun e => [StartEvent.waiterAdd e.1, StartEvent.launch e.1]) =
          pre ++ StartEvent.launch k :: post →
        StartEvent.waiterAdd k ∈ pre := by
  induction l with
  | nil =>
    intro pre k post h
    simp at h
  | cons e t ih =>
    intro pre k post h
    simp only [List.flatMap_cons, List.cons_append, List.nil_append] at h
    cases pre with
    | nil => simp at h
    | cons p1 pre1 =>
      simp only [List.cons_append, List.cons.injEq] at h
      cases pre1 with
      | nil =>
        simp only [List.nil_append, List.cons.injEq] at h
        have : k = e.1 := by
          have := h.2.1
          exact (StartEvent.launch.injEq _ _).mp this.symm
        simp [h.1, this]
      | cons p2 pre2 =>
        simp only [List.cons_append, List.cons.injEq] at h
        have := ih pre2 k post h.2.2
        simp [List.mem_cons, this]

theorem cancel_mem_stop {H : Type} (s : ConsumerState H) (k : String)
    (h : k ∈ keysOf s.entries) : StopEvent.cancel k ∈ (Stop s).2 := by
  simp only [keysOf, List.mem_map] at h
  obtain ⟨e, he, hk⟩ := h
  simp only [Stop, List.mem_append, List.mem_map]
  exact Or.inl ⟨e, he, by rw [hk]⟩

/-- In a list that ends at its only occurrence of a marker, nothing
follows the marker. -/
theorem marker_last {α : Type} (x : α) :
    ∀ evs pre post : List α, x ∉ evs → evs ++ [x] = pre ++ x :: post → post = [] := by
  intro evs
  induction evs with
  | nil =>
    intro pre post _ h
    have hlen := congrArg List.length h
    simp [List.length_append] at hlen
    exact List.length_eq_zero.mp (by omega)
  | cons a evs1 ih =>
    intro pre post hx h
    cases pre with
    | nil =>
      simp only [List.cons_append, List.nil_append, List.cons.injEq] at h
      exact absurd (h.1 ▸ List.mem_cons_self a evs1) (h.1 ▸ hx)
    | cons p pre1 =>
      simp only [List.cons_append, List.cons.injEq] at h
      exact ih pre1 post (fun hm => hx (List.mem_cons_of_mem a hm)) h.2

/-- The run-loop trace contains the exit marker at most once, and only
in final position. -/
theorem runTrace_shape (script : List RunRound) :
    ∃ evs, (runTrace script = evs ∨ runTrace script = evs ++ [RunEvent.exited]) ∧
      RunEvent.exited ∉ evs := by
  induction script with
  | nil => exact ⟨[], Or.inl rfl, by simp⟩
  | cons r rest ih =>
    obtain ⟨evs, hd, hmem⟩ := ih
    by_cases hr : r.runningTop
    · cases hc : r.consumeErr with
      | some e =>
        refine ⟨RunEvent.consumeCall :: RunEvent.logRunError e :: RunEvent.sleep15 :: evs,
          ?_, by simpa using hmem⟩
        rcases hd with hd | hd <;>
          simp [runTrace, hr, hc, hd]
      | none =>
        by_cases ha : r.runningAfter
        · refine ⟨RunEvent.consumeCall :: RunEvent.sleep15 :: evs, ?_, by simpa using hmem⟩
          rcases hd with hd | hd <;>
            simp [runTrace, hr, hc, ha, hd]
        · exact ⟨[RunEvent.consumeCall], Or.inr (by simp [runTrace, hr, hc, ha]), by simp⟩
    · exact ⟨[], Or.inr (by simp [runTrace, hr]), by simp⟩

/-- Once the run loop has exited, the trace records nothing further: no
later consume attempt, sleep, or log. -/
theorem runTrace_nothing_after_exit (script : List RunRound) :
    ∀ pre post, runTrace script = pre ++ RunEvent.exited :: post → post = [] := by
  intro pre post h
  obtain ⟨evs, hd, hmem⟩ := runTrace_shape script
  rcases hd with hd | hd
  · rw [hd] at h
    exact absurd (h ▸ List.mem_append_right pre (List.mem_cons_self _ _)) hmem
  · rw [hd] at h
    exact marker_last RunEvent.exited evs pre post hmem h

/-- The retry sub-loop of redial emits the return marker exactly when it
observed the stop signal, and then in final position. -/
theorem innerRetry_shape (l : List InnerRound) :
    ∃ evs, ((innerRetry l).1 = evs ∧ (innerRetry l).2 ≠ InnerEnd.stopped ∨
        (innerRetry l).1 = evs ++ [RedialEvent.returned] ∧
          (innerRetry l).2 = InnerEnd.stopped) ∧
      RedialEvent.returned ∉ evs := by
  induction l with
  | nil => exact ⟨[], Or.inl ⟨rfl, by simp [innerRetry]⟩, by simp⟩
  | cons r rest ih =>
    obtain ⟨evs, hd, hmem⟩ := ih
    by_cases hs : r.stopSignalled
    · exact ⟨[], Or.inr (by simp [innerRetry, hs]), by simp⟩
    · cases hc : r.initErr with
      | some e =>
        refine ⟨RedialEvent.logReconnecting :: RedialEvent.reconnectAttempt ::
          RedialEvent.logReconnectError e :: RedialEvent.sleep10 :: evs, ?_,
          by simpa using hmem⟩
        rcases hd with ⟨hd, hend⟩ | ⟨hd, hend⟩
        · exact Or.inl ⟨by simp [innerRetry, hs, hc, hd], by simp [innerRetry, hs, hc, hend]⟩
        · exact Or.inr ⟨by simp [innerRetry, hs, hc, hd], by simp [innerRetry, hs, hc, hend]⟩
      | none =>
        refine ⟨[RedialEvent.logReconnecting, RedialEvent.reconnectAttempt,
          RedialEvent.logReestablished], Or.inl ⟨by simp [innerRetry, hs, hc], ?_⟩, by simp⟩
        simp [innerRetry, hs, hc]

/-- The redial trace contains the return marker at most once, and only
in final position. -/
theorem redialTrace_shape (script : List OuterInput) :
    ∃ evs, (redialTrace script = evs ∨ redialTrace script = evs ++ [RedialEvent.returned]) ∧
      RedialEvent.returned ∉ evs := by
  induction script with
  | nil => exact ⟨[], Or.inl rfl, by simp⟩
  | cons o rest ih =>
    cases o with
    | stop => exact ⟨[], Or.inr rfl, by simp⟩
    | closeNotify cause inner =>
      obtain ⟨evsR, hdR, hmemR⟩ := ih
      obtain ⟨evsI, hdI, hmemI⟩ := innerRetry_shape inner
      cases hend : (innerRetry inner).2 with
      | stopped =>
        rcases hdI with ⟨_, hne⟩ | ⟨hdI, _⟩
        · exact absurd hend hne
        · refine ⟨RedialEvent.logClosing cause :: evsI, Or.inr ?_, by simpa using hmemI⟩
          simp [redialTrace, hend, hdI]
      | resumed =>
        rcases hdI with ⟨hdI, _⟩ | ⟨_, hst⟩
        · rcases hdR with hdR | hdR
          · refine ⟨RedialEvent.logClosing cause :: evsI ++ evsR, Or.inl ?_,
              by simp at hmemI hmemR ⊢; tauto⟩
            simp [redialTrace, hend, hdI, hdR]
          · refine ⟨RedialEvent.logClosing cause :: evsI ++ evsR, Or.inr ?_,
              by simp at hmemI hmemR ⊢; tauto⟩
            simp [redialTrace, hend, hdI, hdR]
        · simp [hend] at hst
      | fuelOut =>
        rcases hdI with ⟨hdI, _⟩ | ⟨_, hst⟩
        · refine ⟨RedialEvent.logClosing cause :: evsI, Or.inl ?_, by simpa using hmemI⟩
          simp [redialTrace, hend, hdI]
        · simp [hend] at hst

/-- Once the redial task has returned, the trace records nothing
further: no later reconnect attempt. -/
theorem redialTrace_nothing_after_return (script : List OuterInput) :
    ∀ pre post, redialTrace script = pre ++ RedialEvent.returned :: post → post = [] := by
  intro pre post h
  obtain ⟨evs, hd, hmem⟩ := redialTrace_shape script
  rcases hd with hd | hd
  · rw [hd] at h
    exact absurd (h ▸ List.mem_append_right pre (List.mem_cons_self _ _)) hmem
  · rw [hd] at h
    exact marker_last RedialEvent.returned evs pre post hmem h

/-- Sequence value of the package counter after n registrations from the
fresh state. -/
theorem addN_seq (n : Nat) : (addN n).consumerSeq = n % 2 ^ 64 := by
  induction n with
  | zero => simp [addN, freshConsumer]
  | succ n ih =>
    show (AddFunc "q" "c" () (addN n)).consumerSeq = (n + 1) % 2 ^ 64
    simp only [AddFunc, ih]
    omega

theorem launch_count_flatMap {V : Type} (l : List (String × V)) :
    (l.flatMap (fun e => [StartEvent.waiterAdd e.1, StartEvent.launch e.1])).countP
      (fun ev => match ev with | StartEvent.launch _ => true | _ => false) = l.length := by
  induction l with
  | nil => rfl
  | cons e t ih =>
    simp only [List.flatMap_cons, List.countP_append, List.countP_cons, ih]
    simp
    omega

/-- The drain keeps the delivery stream intact: projecting the bodies
out of the disposition pairs gives back the stream. -/
theorem consumeDrain_fst (handler : Nat → HandlerOutcome) (ds : List Nat) :
    (consumeDrain handler ds).map Prod.fst = ds := by
  induction ds with
  | nil => rfl
  | cons d t ih =>
    simp only [consumeDrain, List.map_cons] at ih ⊢
    simpa using ih

theorem openFresh_events (env : ChanEnv) (s : AmqpxState) (evs : List ChanEvent) :
    ∃ closeEvs openEvs,
      (openFresh env s evs).2.1 = evs ++ closeEvs ++ openEvs ∧
        (∀ ev ∈ closeEvs, ∃ i, ev = ChanEvent.closeOld i) ∧
        (∀ ev ∈ openEvs, ∃ i, ev = ChanEvent.openNew i) := by
  rw [openFresh]
  rcases hc : s.channel with _ | ⟨id, b⟩
  · rcases ho : env.openResult with e | nid
    · exact ⟨[], [], by simp, by simp, by simp⟩
    · exact ⟨[], [ChanEvent.openNew nid], by simp, by simp, by simp⟩
  · cases b
    · rcases ho : env.openResult with e | nid
      · exact ⟨[], [], by simp, by simp, by simp⟩
      · exact ⟨[], [ChanEvent.openNew nid], by simp, by simp, by simp⟩
    · rcases ho : env.openResult with e | nid
      · exact ⟨[ChanEvent.closeOld id], [], by simp, by simp, by simp⟩
      · exact ⟨[ChanEvent.closeOld id], [ChanEvent.openNew nid], by simp, by simp, by simp⟩

theorem openFresh_err (env : ChanEnv) (s : AmqpxState) (evs : List ChanEvent)
    (e : String) (h : env.openResult = .error e) :
    (openFresh env s evs).2.2 = some ("open channel error: " ++ e) := by
  rw [openFresh]
  rcases hc : s.channel with _ | ⟨id, b⟩
  · simp [h]
  · cases b <;> simp [h]

theorem openFresh_replaces (env : ChanEnv) (s : AmqpxState) (evs : List ChanEvent)
    (id nid : Nat) (hc : s.channel = some (id, true)) (ho : env.openResult = .ok nid) :
    openFresh env s evs =
      ({ s with channel := some (nid, true) },
        evs ++ [ChanEvent.closeOld id, ChanEvent.openNew nid], none) := by
  rw [openFresh, hc, ho]
  simp

/-! ## Claim theorems -/

/-- C1 counterexample: a delivery whose handler panics is not rejected.
The deferred recover intercepts the crash, but runWithRecovery has an
unnamed error result, so it returns the zero value nil and consume
acknowledges the delivery. -/
theorem c1_panic_acked_counterexample :
    dispositionFor panicH 0 = Disposition.ack false ∧
      dispositionFor panicH 0 ≠ Disposition.reject true := by decide

/-- C1 (amended): for every delivery whose handler panics, the recovery
wrapper intercepts the crash and logs it, so the loop survives and every
delivery in the stream still receives exactly one disposition; but the
wrapper returns the zero-value nil error, so the panicked delivery is
acknowledged (multiple=false), never rejected. -/
theorem c1_panic_recovered_and_acked (handler : Nat → HandlerOutcome) (b : Nat)
    (m : String) (ds : List Nat) (h : handler b = .panics m) :
    (runWithRecovery handler b).2 ≠ [] ∧
      (runWithRecovery handler b).1 = none ∧
      dispositionFor handler b = Disposition.ack false ∧
      (consumeDrain handler ds).map Prod.fst = ds := by
  refine ⟨?_, ?_, ?_, consumeDrain_fst handler ds⟩ <;>
    simp [runWithRecovery, dispositionFor, h]

/-- C1 witness: the amended statement evaluated on the always-panicking
handler. -/
theorem c1_panic_recovered_and_acked_witness :
    dispositionFor panicH 5 = Disposition.ack false :=
  (c1_panic_recovered_and_acked panicH 5 "nil deref" [] rfl).2.2.1

/-- C2: every drained delivery receives exactly one disposition (the
drain pairs each stream element with one disposition, preserving the
stream); a handler error yields reject with requeue=true, and so never
an ack; handler success yields ack with multiple=false, and so never a
reject. -/
theorem c2_one_disposition_per_delivery (handler : Nat → HandlerOutcome)
    (ds : List Nat) (b : Nat) (e : String) :
    (consumeDrain handler ds).map Prod.fst = ds ∧
      (consumeDrain handler ds).length = ds.length ∧
      (handler b = .fail e → dispositionFor handler b = Disposition.reject true) ∧
      (handler b = .ok → dispositionFor handler b = Disposition.ack false) := by
  refine ⟨consumeDrain_fst handler ds, ?_, fun h => ?_, fun h => ?_⟩ <;>
    simp [consumeDrain, dispositionFor, runWithRecovery, *]

/-- C2 witness: the dispositions on concrete always-failing and
always-succeeding handlers. -/
theorem c2_one_disposition_per_delivery_witness :
    (consumeDrain failH [5, 7]).map Prod.fst = [5, 7] ∧
      dispositionFor failH 5 = Disposition.reject true ∧
      dispositionFor okH 5 = Disposition.ack false :=
  ⟨(c2_one_disposition_per_delivery failH [5, 7] 5 "boom").1,
    (c2_one_disposition_per_delivery failH [5, 7] 5 "boom").2.2.1 rfl,
    (c2_one_disposition_per_delivery okH [] 5 "boom").2.2.2 rfl⟩

/-- C9 counterexample: AddFunc is not guarded by the running flag, so a
registration performed while the supervisor is running mutates the
registry mapping. -/
theorem c9_late_addfunc_mutates_counterexample :
    ((⟨0, [], true⟩ : ConsumerState Unit).running = true) ∧
      (AddFunc "q" "c" () (⟨0, [], true⟩ : ConsumerState Unit)).entries ≠
        (⟨0, [], true⟩ : ConsumerState Unit).entries := by decide

/-- C9 (amended): Start and Stop leave the registry mapping unchanged,
and the consumption path only reads it; the registry is mutated only by
AddFunc, which has no running-flag guard and therefore still mutates the
mapping when invoked after Start. -/
theorem c9_registry_unchanged_by_start_stop {H : Type} (s : ConsumerState H) :
    (Start s).1.entries = s.entries ∧ (Stop s).1.entries = s.entries := by
  constructor
  · by_cases h : s.running <;> simp [Start, h]
  · simp [Stop]

/-- C3: Stop clears the running flag, and the shutdown trace behind the
returned context is a block consisting solely of cancels that covers
every registered identity, followed in order by the wait on the
completion counter, the channel close, and only then the resolution of
the context. -/
theorem c3_stop_sequence {H : Type} (s : ConsumerState H) :
    (Stop s).1.running = false ∧
      ∃ pre, (Stop s).2 =
          pre ++ [StopEvent.waitJobs, StopEvent.closeChannel, StopEvent.resolve] ∧
        (∀ k ∈ keysOf s.entries, StopEvent.cancel k ∈ pre) ∧
        (∀ ev ∈ pre, ∃ k ∈ keysOf s.entries, ev = StopEvent.cancel k) := by
  refine ⟨rfl, s.entries.map (fun e : String × String × H => StopEvent.cancel e.1),
    rfl, ?_, ?_⟩
  · intro k hk
    simp only [keysOf, List.mem_map] at hk
    obtain ⟨e, he, hk⟩ := hk
    exact List.mem_map.mpr ⟨e, he, by rw [hk]⟩
  · intro ev hev
    simp only [List.mem_map] at hev
    obtain ⟨e, he, hev⟩ := hev
    refine ⟨e.1, ?_, hev.symm⟩
    simp only [keysOf, List.mem_map]
    exact ⟨e, he, rfl⟩

/-- C3 witness: the sequence evaluated on a one-binding running state. -/
theorem c3_stop_sequence_witness :
    (Stop (⟨1, [("c-1", "q", ())], true⟩ : ConsumerState Unit)).1.running = false :=
  (c3_stop_sequence (⟨1, [("c-1", "q", ())], true⟩ : ConsumerState Unit)).1

/-- C6: Start is a no-op when the running flag is set; otherwise it sets
the flag and launches exactly one loop per registered binding (the
launched identities are exactly the registry keys and the number of
launch events equals the number of bindings), registering each loop in
the completion counter before its launch. -/
theorem c6_start_launches {H : Type} (s : ConsumerState H) :
    (s.running = true → Start s = (s, [])) ∧
      (s.running = false →
        (Start s).1.running = true ∧
          (∀ k, StartEvent.launch k ∈ (Start s).2 ↔ k ∈ keysOf s.entries) ∧
          ((Start s).2.countP
            (fun ev => match ev with | StartEvent.launch _ => true | _ => false) =
              s.entries.length) ∧
          (∀ pre k post, (Start s).2 = pre ++ StartEvent.launch k :: post →
            StartEvent.waiterAdd k ∈ pre)) := by
  constructor
  · intro h; simp [Start, h]
  · intro h
    refine ⟨by simp [Start, h], fun k => ?_, ?_, fun pre k post hpre => ?_⟩
    · rw [Start, if_neg (by simp [h])]
      exact launch_mem_flatMap s.entries k
    · rw [Start, if_neg (by simp [h])]
      exact launch_count_flatMap s.entries
    · rw [Start, if_neg (by simp [h])] at hpre
      exact waiterAdd_before_launch s.entries pre k post hpre

/-- C6 witness: Start on a one-binding idle state. -/
theorem c6_start_launches_witness :
    (Start (⟨1, [("c-1", "q", ())], false⟩ : ConsumerState Unit)).1.running = true :=
  ((c6_start_launches (⟨1, [("c-1", "q", ())], false⟩ : ConsumerState Unit)).2 rfl).1

/-- C10: a binding registered after Start is never launched (the Start
trace launches exactly the pre-Start identities and a repeated Start is
a no-op because the flag is already set), yet the binding sits in the
registry and the Stop trace still cancels its identity. -/
theorem c10_late_registration {H : Type} (s0 : ConsumerState H)
    (q c : String) (fn : H) (h0 : s0.running = false)
    (hk : nextKey (Start s0).1 c ∉ keysOf s0.entries) :
    StartEvent.launch (nextKey (Start s0).1 c) ∉ (Start s0).2 ∧
      (Start (AddFunc q c fn (Start s0).1)).2 = [] ∧
      nextKey (Start s0).1 c ∈ keysOf (AddFunc q c fn (Start s0).1).entries ∧
      StopEvent.cancel (nextKey (Start s0).1 c) ∈
        (Stop (AddFunc q c fn (Start s0).1)).2 := by
  have hS : Start s0 = ({ s0 with running := true },
      s0.entries.flatMap fun e => [StartEvent.waiterAdd e.1, StartEvent.launch e.1]) := by
    rw [Start, if_neg (by simp [h0])]
  rw [hS] at hk ⊢
  have hrun : (AddFunc q c fn ({ s0 with running := true } : ConsumerState H)).running
      = true := by
    simp [AddFunc]
  refine ⟨fun hmem => hk ((launch_mem_flatMap s0.entries _).mp hmem), ?_, ?_, ?_⟩
  · simp [Start, hrun]
  · simp only [AddFunc]
    exact mem_keysOf_mapInsert_self _ _ _
  · apply cancel_mem_stop
    simp only [AddFunc]
    exact mem_keysOf_mapInsert_self _ _ _

/-- C10 witness: late registration on the fresh consumer after Start. -/
theorem c10_late_registration_witness :
    nextKey (Start freshConsumer).1 "c" ∈
      keysOf (AddFunc "q" "c" () (Start freshConsumer).1).entries :=
  (c10_late_registration freshConsumer "q" "c" () rfl (by simp [freshConsumer, keysOf])).2.2.1

/-- C4: channel acquisition first verifies the shared connection,
re-initializing it exactly when it is absent or closed; a connection
failure is returned wrapped as an amqpd connection error before any
channel is touched; a still-open previous channel is closed before the
replacement is opened; an open failure is returned wrapped as an open
channel error; and New yields no supervisor when initChannel fails. -/
theorem c4_channel_acquisition (env : ChanEnv) (s : AmqpxState) (e : String)
    (id nid : Nat) (conn0 : ConnStatus) :
    (s.conn = ConnStatus.live → ChanEvent.connInit ∉ (initChannel env s).2.1) ∧
      (s.conn.needsInit = true →
        (initChannel env s).2.1.head? = some ChanEvent.connInit) ∧
      (s.conn.needsInit = true → env.initResult = some e →
        initChannel env s =
          (s, [ChanEvent.connInit], some ("amqpd connection error: " ++ e))) ∧
      ((s.conn.needsInit = false ∨ env.initResult = none) → env.openResult = .error e →
        (initChannel env s).2.2 = some ("open channel error: " ++ e)) ∧
      (s.conn = ConnStatus.live → s.channel = some (id, true) → env.openResult = .ok nid →
        initChannel env s =
          ({ conn := ConnStatus.live, channel := some (nid, true) },
            [ChanEvent.closeOld id, ChanEvent.openNew nid], none)) ∧
      (s.conn.needsInit = true → env.initResult = none → s.channel = some (id, true) →
        env.openResult = .ok nid →
        initChannel env s =
          ({ conn := ConnStatus.live, channel := some (nid, true) },
            [ChanEvent.connInit, ChanEvent.closeOld id, ChanEvent.openNew nid], none)) ∧
      ((initChannel env { conn := conn0, channel := none }).2.2 = some e →
        New conn0 env = .error e) := by
  refine ⟨?_, ?_, ?_, ?_, ?_, ?_, ?_⟩
  · intro hlive
    have hni : s.conn.needsInit = false := by rw [hlive]; rfl
    rw [initChannel, hni]
    simp only [Bool.false_eq_true, if_false]
    obtain ⟨closeEvs, openEvs, hevs, hclose, hopen⟩ := openFresh_events env s []
    rw [hevs]
    intro hmem
    simp only [List.nil_append, List.mem_append] at hmem
    rcases hmem with h | h
    · obtain ⟨i, hi⟩ := hclose _ h
      exact ChanEvent.noConfusion hi
    · obtain ⟨i, hi⟩ := hopen _ h
      exact ChanEvent.noConfusion hi
  · intro hni
    rw [initChannel, hni, if_pos rfl]
    cases hr : env.initResult with
    | some e2 => rfl
    | none =>
      obtain ⟨closeEvs, openEvs, hevs, _, _⟩ :=
        openFresh_events env { s with conn := ConnStatus.live } [ChanEvent.connInit]
      rw [hevs]
      rfl
  · intro hni hr
    rw [initChannel, hni, if_pos rfl, hr]
  · intro hok hopen
    rcases hok with hni | hr
    · rw [initChannel, hni]
      simp only [Bool.false_eq_true, if_false]
      exact openFresh_err env s [] e hopen
    · rw [initChannel]
      by_cases hni : s.conn.needsInit = true
      · rw [if_pos hni, hr]
        exact openFresh_err env _ [ChanEvent.connInit] e hopen
      · rw [if_neg hni]
        exact openFresh_err env s [] e hopen
  · intro hlive hc ho
    have hni : s.conn.needsInit = false := by rw [hlive]; rfl
    rw [initChannel, hni]
    simp only [Bool.false_eq_true, if_false]
    rw [openFresh_replaces env s [] id nid hc ho]
    have : { s with channel := some (nid, true) } =
        ({ conn := ConnStatus.live, channel := some (nid, true) } : AmqpxState) := by
      cases s
      simp_all
    rw [this]
    rfl
  · intro hni hr hc ho
    rw [initChannel, hni, if_pos rfl, hr]
    show openFresh env { conn := ConnStatus.live, channel := s.channel }
        [ChanEvent.connInit] = _
    have hc2 : ({ conn := ConnStatus.live, channel := s.channel } : AmqpxState).channel =
        some (id, true) := hc
    rw [openFresh_replaces env _ [ChanEvent.connInit] id nid hc2 ho]
    rfl
  · intro h
    rw [New]
    simp only [h]

/-- C4 witness: connection re-initialization failure on a closed
connection is surfaced wrapped, with no channel opened. -/
theorem c4_channel_acquisition_witness :
    initChannel ⟨some "refused", Except.error "x"⟩ ⟨ConnStatus.closed, none⟩ =
      (⟨ConnStatus.closed, none⟩, [ChanEvent.connInit],
        some ("amqpd connection error: " ++ "refused")) :=
  (c4_channel_acquisition ⟨some "refused", Except.error "x"⟩ ⟨ConnStatus.closed, none⟩
    "refused" 0 0 ConnStatus.closed).2.2.1 rfl rfl

/-- C5 counterexample: the global sequence lives in a uint64, which
wraps: the registration made on the fresh state and the registration
made after 2 to the 64 further calls carry the same sequence value and
assign the same identity, with the same label. -/
theorem c5_wraparound_counterexample :
    nextKey (addN (2 ^ 64)) "c" = nextKey (addN 0) "c" ∧
      (addN (2 ^ 64 + 1)).consumerSeq = (addN 1).consumerSeq := by
  have h1 : ((2 : Nat) ^ 64 % 2 ^ 64 + 1) % 2 ^ 64 = 1 := by norm_num
  have h2 : ((0 : Nat) % 2 ^ 64 + 1) % 2 ^ 64 = 1 := by norm_num
  constructor
  · simp only [nextKey, addN_seq, h1, h2]
  · simp only [addN_seq]
    omega

/-- C5 (amended): every registration call assigns the identity
label-hyphen-sequence, where the sequence is the global counter
incremented modulo 2 to the 64; two registration calls - even with
identical labels - produce distinct identities, and the stored binding
extends the registry without overwriting any existing entry, provided
their incremented sequence values differ modulo 2 to the 64 (that is,
unless 2 to the 64 registrations separate them, where the uint64
counter wraps) and the assigned identity is not already present. -/
theorem c5_distinct_identities {H : Type} (s t : ConsumerState H)
    (label1 label2 q : String) (fn : H)
    (h : (s.consumerSeq + 1) % 2 ^ 64 ≠ (t.consumerSeq + 1) % 2 ^ 64) :
    nextKey s label1 ≠ nextKey t label2 ∧
      (nextKey s label1 ∉ keysOf s.entries →
        (AddFunc q label1 fn s).entries = s.entries ++ [(nextKey s label1, (q, fn))]) := by
  constructor
  · intro he
    exact h (consumerKey_inj_seq he)
  · intro hfresh
    simp only [AddFunc]
    exact mapInsert_of_not_mem _ _ _ hfresh

/-- C5 witness: the first two registrations get distinct identities. -/
theorem c5_distinct_identities_witness :
    nextKey freshConsumer "c" ≠ nextKey (addN 1) "c" :=
  (c5_distinct_identities freshConsumer (addN 1) "c" "c" "q" () (by decide)).1

/-- C7: the per-binding loop exits immediately, before any consume
attempt, when the running flag reads false at the loop head; on a failed
consume it logs, sleeps 15 seconds, and retries; on a clean stream end
it re-checks the flag and either sleeps 15 seconds and re-attempts or,
when the flag is false, exits; and nothing at all follows the exit in
the trace, so no further consume attempt occurs. -/
theorem c7_run_loop (r : RunRound) (rest script : List RunRound) (e : String) :
    (r.runningTop = false → runTrace (r :: rest) = [RunEvent.exited] ∧
        RunEvent.consumeCall ∉ runTrace (r :: rest)) ∧
      (r.runningTop = true → r.consumeErr = some e →
        runTrace (r :: rest) = RunEvent.consumeCall :: RunEvent.logRunError e ::
          RunEvent.sleep15 :: runTrace rest) ∧
      (r.runningTop = true → r.consumeErr = none → r.runningAfter = true →
        runTrace (r :: rest) = RunEvent.consumeCall :: RunEvent.sleep15 :: runTrace rest) ∧
      (r.runningTop = true → r.consumeErr = none → r.runningAfter = false →
        runTrace (r :: rest) = [RunEvent.consumeCall, RunEvent.exited]) ∧
      (∀ pre post, runTrace script = pre ++ RunEvent.exited :: post → post = []) := by
  refine ⟨fun h => ?_, fun h hc => ?_, fun h hc ha => ?_, fun h hc ha => ?_,
    runTrace_nothing_after_exit script⟩ <;>
    simp [runTrace, *]

/-- C7 witness: a loop that sees the flag already cleared exits at
once. -/
theorem c7_run_loop_witness :
    runTrace [⟨false, none, false⟩] = [RunEvent.exited] :=
  ((c7_run_loop ⟨false, none, false⟩ [] [] "e").1 rfl).1

/-- C8: the redial task returns at once on the stop signal, attempting
no reconnection; the retry sub-loop re-checks the stop signal first on
every iteration and returns immediately when it fires; each failed
re-acquisition logs and sleeps 10 seconds before the next iteration;
a successful re-acquisition ends the sub-loop and the outer wait
resumes; after a stopped sub-loop the trace ends; and nothing ever
follows the return marker in a redial trace. -/
theorem c8_redial_protocol (cause e : String) (r : InnerRound)
    (rest inner : List InnerRound) (orest oscript : List OuterInput) :
    (redialTrace (OuterInput.stop :: orest) = [RedialEvent.returned] ∧
        RedialEvent.reconnectAttempt ∉ redialTrace (OuterInput.stop :: orest)) ∧
      (r.stopSignalled = true →
        innerRetry (r :: rest) = ([RedialEvent.returned], InnerEnd.stopped)) ∧
      (r.stopSignalled = false → r.initErr = some e →
        innerRetry (r :: rest) =
          (RedialEvent.logReconnecting :: RedialEvent.reconnectAttempt ::
            RedialEvent.logReconnectError e :: RedialEvent.sleep10 :: (innerRetry rest).1,
            (innerRetry rest).2)) ∧
      (r.stopSignalled = false → r.initErr = none →
        innerRetry (r :: rest) =
          ([RedialEvent.logReconnecting, RedialEvent.reconnectAttempt,
            RedialEvent.logReestablished], InnerEnd.resumed)) ∧
      ((innerRetry inner).2 = InnerEnd.resumed →
        redialTrace (OuterInput.closeNotify cause inner :: orest) =
          RedialEvent.logClosing cause :: ((innerRetry inner).1 ++ redialTrace orest)) ∧
      ((innerRetry inner).2 = InnerEnd.stopped →
        redialTrace (OuterInput.closeNotify cause inner :: orest) =
          RedialEvent.logClosing cause :: (innerRetry inner).1) ∧
      (∀ pre post, redialTrace oscript = pre ++ RedialEvent.returned :: post → post = []) := by
  refine ⟨⟨rfl, by simp [redialTrace]⟩, fun hs => ?_, fun hs hc => ?_, fun hs hc => ?_,
    fun hr => ?_, fun hr => ?_, redialTrace_nothing_after_return oscript⟩
  · simp [innerRetry, hs]
  · simp [innerRetry, hs, hc]
  · simp [innerRetry, hs, hc]
  · simp [redialTrace, hr]
  · simp [redialTrace, hr]

/-- C8 witness: the stop signal alone produces an immediate return. -/
theorem c8_redial_protocol_witness :
    redialTrace [OuterInput.stop] = [RedialEvent.returned] :=
  (c8_redial_protocol "c" "e" ⟨true, none⟩ [] [] [] []).1.1

end Amqpx
